import Mathlib

/-!
Verification of the chttp HTTP client core against its specification.

The definitions below are a shallow embedding of the relevant parts of the
source tree: the synchronous `Body` type (src/body/sync.rs), the blocking
to asynchronous body copier (`Writer::write`), the client request pipeline
(src/client.rs), the error conversions (src/error.rs), and the interceptor
execution context (src/interceptor/context.rs).  Byte values are modelled
as natural numbers, readers as the deterministic byte streams they produce,
and header maps as association lists with case-insensitive names, matching
the behaviour of the http crate's HeaderMap.
-/

namespace Chttp

/-! ## Body (src/body/sync.rs)

`Body(Inner)` with `Inner::Buffer(Cursor<Cow<[u8]>>)` and
`Inner::Reader(Box<dyn Read>, Option<u64>)`.  A cursor is a byte buffer plus
a position; a reader is modelled by the stream of bytes it will produce and
the optional length supplied at construction. -/

inductive Body where
  | buffer (data : List Nat) (pos : Nat)
  | reader (stream : List Nat) (len : Option Nat)
deriving DecidableEq

namespace Body

/-- `Body::len`: total size of the underlying buffer for in-memory bodies,
the optional constructor-supplied length for reader bodies. -/
def len : Body → Option Nat
  | buffer data _ => some data.length
  | reader _ l => l

/-- `Body::reset`: rewind the cursor to position 0 for in-memory bodies and
report `true`; report `false` and leave the body untouched otherwise. -/
def reset : Body → Bool × Body
  | buffer data _ => (true, buffer data 0)
  | b => (false, b)

/-- `<Body as Read>::read` with a buffer of size `bufsize`: a cursor reads
from its position and advances; a reader yields its next bytes. -/
def read : Body → Nat → List Nat × Body
  | buffer data pos, bufsize =>
      let chunk := (data.drop pos).take bufsize
      (chunk, buffer data (pos + chunk.length))
  | reader stream l, bufsize => (stream.take bufsize, reader (stream.drop bufsize) l)

/-- The bytes a body has not yet produced. -/
def bytesRemaining : Body → List Nat
  | buffer data pos => data.drop pos
  | reader stream _ => stream

/-- All bytes of the underlying source. -/
def allBytes : Body → List Nat
  | buffer data _ => data
  | reader stream _ => stream

/-- Whether the body is an in-memory buffer. -/
def isBuffer : Body → Bool
  | buffer _ _ => true
  | _ => false

end Body

/-- Repeatedly call `read` with a buffer of size `bufsize` until it returns
zero bytes, collecting everything produced.  `fuel` bounds the number of
read calls; any fuel at least the number of remaining bytes is enough to
reach the terminating zero-length read. -/
def drain : Body → Nat → Nat → List Nat
  | _, _, 0 => []
  | b, bufsize, fuel + 1 =>
      let r := Body.read b bufsize
      if r.fst.isEmpty then [] else r.fst ++ drain r.snd bufsize fuel

/-- Splitting a list at the realized length of `take n` reassembles it. -/
theorem take_drop_len {α : Type} (l : List α) (n : Nat) :
    l.take n ++ l.drop (l.take n).length = l := by
  induction l generalizing n with
  | nil => simp
  | cons a t ih =>
      cases n with
      | zero => simp
      | succ m =>
          simp only [List.take_succ_cons, List.length_cons, List.drop_succ_cons,
            List.cons_append, List.cons.injEq, true_and]
          exact ih m

/-- A take with positive count is empty only for the empty list. -/
theorem take_pos_eq_nil {α : Type} {l : List α} {n : Nat}
    (hn : 1 ≤ n) (h : l.take n = []) : l = [] := by
  cases l with
  | nil => rfl
  | cons a t =>
      cases n with
      | zero => omega
      | succ m => simp at h

/-- Draining with positive buffer size and enough fuel yields exactly the
remaining bytes of the body, in order. -/
theorem drain_eq_bytesRemaining :
    ∀ (fuel : Nat) (b : Body) (bufsize : Nat), 1 ≤ bufsize →
      (Body.bytesRemaining b).length ≤ fuel →
      drain b bufsize fuel = Body.bytesRemaining b := by
  intro fuel
  induction fuel with
  | zero =>
      intro b bufsize _ hlen
      have : Body.bytesRemaining b = [] :=
        List.eq_nil_of_length_eq_zero (Nat.le_zero.mp hlen)
      simp [drain, this]
  | succ fuel ih =>
      intro b bufsize hbuf hlen
      cases b with
      | buffer data pos =>
          simp only [Body.bytesRemaining] at hlen ⊢
          by_cases hc : (data.drop pos).take bufsize = []
          · have : data.drop pos = [] := take_pos_eq_nil hbuf hc
            simp [drain, Body.read, hc, this]
          · have hcond : ¬(((data.drop pos).take bufsize).isEmpty = true) := by
              simp [List.isEmpty_iff, hc]
            simp only [drain, Body.read]
            rw [if_neg hcond]
            have hpos : 1 ≤ ((data.drop pos).take bufsize).length :=
              Nat.one_le_iff_ne_zero.mpr (fun h =>
                hc (List.eq_nil_of_length_eq_zero h))
            have hdrop : data.drop (pos + ((data.drop pos).take bufsize).length)
                = (data.drop pos).drop ((data.drop pos).take bufsize).length := by
              rw [List.drop_drop]
            have hlen2 : ((data.drop pos).drop
                ((data.drop pos).take bufsize).length).length ≤ fuel := by
              rw [List.length_drop]
              omega
            have hrec := ih (Body.buffer data (pos + ((data.drop pos).take bufsize).length))
              bufsize hbuf (by simpa [Body.bytesRemaining, hdrop] using hlen2)
            simp only [Body.bytesRemaining] at hrec
            rw [hrec, hdrop]
            exact take_drop_len _ _
      | reader stream l =>
          simp only [Body.bytesRemaining] at hlen ⊢
          by_cases hc : stream.take bufsize = []
          · have : stream = [] := take_pos_eq_nil hbuf hc
            simp [drain, Body.read, hc, this]
          · have hcond : ¬((stream.take bufsize).isEmpty = true) := by
              simp [List.isEmpty_iff, hc]
            simp only [drain, Body.read]
            rw [if_neg hcond]
            have hne : stream ≠ [] := by
              intro h
              exact hc (by simp [h])
            have hlen2 : (stream.drop bufsize).length ≤ fuel := by
              rw [List.length_drop]
              have : 1 ≤ stream.length := by
                cases stream with
                | nil => exact absurd rfl hne
                | cons a t => simp
              omega
            have hrec := ih (Body.reader (stream.drop bufsize) l) bufsize hbuf
              (by simpa [Body.bytesRemaining] using hlen2)
            simp only [Body.bytesRemaining] at hrec
            rw [hrec]
            exact List.take_append_drop _ _

/-- A drain never yields more bytes than remain in the body, whatever the
fuel. -/
theorem drain_length_le :
    ∀ (fuel : Nat) (b : Body) (bufsize : Nat),
      (drain b bufsize fuel).length ≤ (Body.bytesRemaining b).length := by
  intro fuel
  induction fuel with
  | zero => intro b bufsize; simp [drain]
  | succ fuel ih =>
      intro b bufsize
      cases b with
      | buffer data pos =>
          by_cases hc : (data.drop pos).take bufsize = []
          · simp [drain, Body.read, hc, Body.bytesRemaining]
          · have hcond : ¬(((data.drop pos).take bufsize).isEmpty = true) := by
              simp [List.isEmpty_iff, hc]
            simp only [drain, Body.read, Body.bytesRemaining]
            rw [if_neg hcond, List.length_append]
            have h1 := ih (Body.buffer data (pos + ((data.drop pos).take bufsize).length)) bufsize
            simp only [Body.bytesRemaining, List.length_drop] at h1
            have h2 : ((data.drop pos).take bufsize).length
                ≤ (data.drop pos).length := by
              rw [List.length_take]
              exact Nat.min_le_right _ _
            rw [List.length_drop] at h2 ⊢
            omega
      | reader stream l =>
          by_cases hc : stream.take bufsize = []
          · simp [drain, Body.read, hc, Body.bytesRemaining]
          · have hcond : ¬((stream.take bufsize).isEmpty = true) := by
              simp [List.isEmpty_iff, hc]
            simp only [drain, Body.read, Body.bytesRemaining]
            rw [if_neg hcond, List.length_append]
            have h1 := ih (Body.reader (stream.drop bufsize) l) bufsize
            simp only [Body.bytesRemaining, List.length_drop] at h1
            have ht1 : (stream.take bufsize).length ≤ bufsize := by
              rw [List.length_take]
              exact Nat.min_le_left _ _
            have ht2 : (stream.take bufsize).length ≤ stream.length := by
              rw [List.length_take]
              exact Nat.min_le_right _ _
            omega

/-- No bytes have been read from the body yet: an in-memory cursor is at
position 0; a fresh reader is trivially unread. -/
def Body.unread : Body → Bool
  | Body.buffer _ pos => pos == 0
  | Body.reader _ _ => true

/-- The body's underlying source actually holds as many bytes as the length
it advertises.  This always holds for in-memory bodies; for reader bodies
it is precisely the contract `from_reader_sized` asks of its caller. -/
def Body.sourceSized : Body → Bool
  | Body.buffer _ _ => true
  | Body.reader stream l =>
      match l with
      | some n => n == stream.length
      | none => true

/-- C1 (amended): for every unread Body whose advertised length Some n
matches the byte count its underlying source will actually produce —
automatic for in-memory bodies, and the constructor contract of
from_reader_sized for reader-backed bodies — repeatedly calling read until
it returns 0 yields exactly n bytes, and no drain ever yields more than n
bytes. -/
theorem body_drain_exact_length (b : Body) (n : Nat)
    (hlen : Body.len b = some n) (hfresh : Body.unread b = true)
    (hsized : Body.sourceSized b = true) :
    (∀ bufsize fuel, 1 ≤ bufsize → n ≤ fuel →
        (drain b bufsize fuel).length = n) ∧
    (∀ bufsize fuel, (drain b bufsize fuel).length ≤ n) := by
  have hrem : (Body.bytesRemaining b).length = n := by
    cases b with
    | buffer data pos =>
        simp only [Body.unread, beq_iff_eq] at hfresh
        simp only [Body.len, Option.some.injEq] at hlen
        simp [Body.bytesRemaining, hfresh, hlen]
    | reader stream l =>
        simp only [Body.len] at hlen
        subst hlen
        simp only [Body.sourceSized, beq_iff_eq] at hsized
        simp [Body.bytesRemaining, hsized]
  constructor
  · intro bufsize fuel hbuf hfuel
    rw [drain_eq_bytesRemaining fuel b bufsize hbuf (by omega), hrem]
  · intro bufsize fuel
    rw [← hrem]
    exact drain_length_le fuel b bufsize

/-- Witness for C1 at a concrete in-memory body of two bytes. -/
theorem body_drain_exact_length_witness :
    (drain (Body.buffer [5, 6] 0) 1 2).length = 2 :=
  (body_drain_exact_length (Body.buffer [5, 6] 0) 2 (by decide) (by decide)
    (by decide)).1 1 2 (by decide) (by decide)

/-- C1 counterexample: a reader-backed body constructed via
from_reader_sized with advertised length 1, over a reader that actually
produces two bytes, reports len = Some 1 yet drains to two bytes: the read
loop forwards whatever the reader yields and never truncates at the
advertised length. -/
theorem body_drain_length_mismatch :
    Body.len (Body.reader [0, 0] (some 1)) = some 1 ∧
    drain (Body.reader [0, 0] (some 1)) 16384 4 = [0, 0] ∧
    ¬((drain (Body.reader [0, 0] (some 1)) 16384 4).length = 1) := by
  decide

/-- C2: reset returns true exactly for in-memory bodies, in which case the
cursor is repositioned to the start and a subsequent drain rereads the full
buffer from the beginning; for every other body reset returns false and
leaves the body unchanged. -/
theorem body_reset_spec (b : Body) :
    ((Body.reset b).fst = true ↔ Body.isBuffer b = true) ∧
    ((Body.reset b).fst = false → (Body.reset b).snd = b) ∧
    ((Body.reset b).fst = true →
      Body.bytesRemaining (Body.reset b).snd = Body.allBytes b) ∧
    ((Body.reset b).fst = true → ∀ bufsize fuel, 1 ≤ bufsize →
      (Body.allBytes b).length ≤ fuel →
      drain (Body.reset b).snd bufsize fuel = Body.allBytes b) := by
  cases b with
  | buffer data pos =>
      refine ⟨by simp [Body.reset, Body.isBuffer], by simp [Body.reset], ?_, ?_⟩
      · intro _
        simp [Body.reset, Body.bytesRemaining, Body.allBytes]
      · intro _ bufsize fuel hbuf hfuel
        have : Body.bytesRemaining (Body.buffer data 0) = data := by
          simp [Body.bytesRemaining]
        rw [show (Body.reset (Body.buffer data pos)).snd = Body.buffer data 0 from rfl]
        rw [drain_eq_bytesRemaining fuel _ bufsize hbuf (by
          rw [this]
          simpa [Body.allBytes] using hfuel), this]
        simp [Body.allBytes]
  | reader stream l =>
      refine ⟨by simp [Body.reset, Body.isBuffer], by simp [Body.reset], ?_, ?_⟩
      · intro h
        simp [Body.reset] at h
      · intro h
        simp [Body.reset] at h

/-- Witness for C2 at a concrete partially-read in-memory body. -/
theorem body_reset_spec_witness :
    drain (Body.reset (Body.buffer [1, 2, 3] 2)).snd 2 3
      = Body.allBytes (Body.buffer [1, 2, 3] 2) :=
  (body_reset_spec (Body.buffer [1, 2, 3] 2)).2.2.2 (by decide) 2 3
    (by decide) (by decide)

/-- A user-visible operation on a Body: a read with some buffer size, or a
reset. -/
inductive BodyOp where
  | read (bufsize : Nat)
  | reset

/-- Apply one operation to a body, keeping the resulting state. -/
def applyOp (b : Body) : BodyOp → Body
  | BodyOp.read n => (Body.read b n).snd
  | BodyOp.reset => (Body.reset b).snd

/-- Apply a sequence of operations to a body. -/
def applyOps (b : Body) (ops : List BodyOp) : Body := ops.foldl applyOp b

/-- A single read or reset never changes what len reports. -/
theorem len_applyOp (b : Body) (op : BodyOp) :
    Body.len (applyOp b op) = Body.len b := by
  cases b <;> cases op <;> simp [applyOp, Body.read, Body.reset, Body.len]

/-- C9: len is invariant under every sequence of read and reset calls; an
in-memory body always reports the total size of its underlying buffer (not
the remaining unread bytes), and a reader-backed body always reports
exactly the optional length supplied at construction. -/
theorem body_len_invariant (ops : List BodyOp) :
    (∀ b : Body, Body.len (applyOps b ops) = Body.len b) ∧
    (∀ data pos, Body.len (applyOps (Body.buffer data pos) ops)
        = some data.length) ∧
    (∀ stream l, Body.len (applyOps (Body.reader stream l) ops) = l) := by
  have main : ∀ (ops : List BodyOp) (b : Body),
      Body.len (applyOps b ops) = Body.len b := by
    intro ops
    induction ops with
    | nil => intro b; rfl
    | cons op rest ih =>
        intro b
        have : applyOps b (op :: rest) = applyOps (applyOp b op) rest := by
          simp [applyOps]
        rw [this, ih, len_applyOp]
  exact ⟨main ops, fun data pos => main ops (Body.buffer data pos),
    fun stream l => main ops (Body.reader stream l)⟩

/-! ## Header maps (the http crate's HeaderMap, as used by src/client.rs)

Headers are an association list of name/value pairs; names compare
case-insensitively.  `get` returns the first value for a name, `insert`
replaces every existing value for the name, and appending adds an entry. -/

abbrev Headers : Type := List (String × String)

/-- ASCII lowercase of one character. -/
def asciiLower (c : Char) : Char :=
  if 65 ≤ c.toNat ∧ c.toNat ≤ 90 then Char.ofNat (c.toNat + 32) else c

/-- Case-insensitive header-name equality. -/
def headerNameEq (a b : String) : Bool :=
  a.toList.map asciiLower == b.toList.map asciiLower

/-- `HeaderMap::get`: first value stored under the name, if any. -/
def getHeader (hs : Headers) (name : String) : Option String :=
  (hs.find? (fun p => headerNameEq p.fst name)).map Prod.snd

/-- All values stored under the name, in order. -/
def getHeaderAll (hs : Headers) (name : String) : List String :=
  (hs.filter (fun p => headerNameEq p.fst name)).map Prod.snd

/-- `HeaderMap::insert`: drop every existing value for the name and store
the single new value. -/
def insertHeader (hs : Headers) (name value : String) : Headers :=
  hs.filter (fun p => !headerNameEq p.fst name) ++ [(name, value)]

/-- Filtering for a name after filtering it away yields nothing. -/
theorem filter_not_filter {f : String × String → Bool} (hs : Headers) :
    (hs.filter (fun p => !f p)).filter (fun p => f p) = [] := by
  induction hs with
  | nil => rfl
  | cons a t ih =>
      by_cases h : f a
      · simp [List.filter, h, ih]
      · simp [List.filter, h, ih]

/-- After an insert, the only values for the name are the new one. -/
theorem getHeaderAll_insertHeader (hs : Headers) (name value : String) :
    getHeaderAll (insertHeader hs name value) name = [value] := by
  unfold getHeaderAll insertHeader
  rw [List.filter_append, filter_not_filter]
  simp [headerNameEq]

/-- Looking a name up after an insert finds it. -/
theorem getHeader_append_self (hs : Headers) (name value : String)
    (h : getHeader hs name = none) :
    getHeader (hs ++ [(name, value)]) name = some value := by
  unfold getHeader at *
  induction hs with
  | nil =>
      have hself : headerNameEq name name = true := by
        simp [headerNameEq]
      simp [List.find?_cons, hself]
  | cons a t ih =>
      by_cases hf : headerNameEq a.fst name = true
      · exfalso
        rw [List.find?_cons_of_pos (p := fun x => headerNameEq x.fst name)
          t hf] at h
        simp at h
      · rw [List.cons_append,
          List.find?_cons_of_neg (p := fun x => headerNameEq x.fst name)
            (t ++ [(name, value)]) hf]
        rw [List.find?_cons_of_neg (p := fun x => headerNameEq x.fst name)
          t hf] at h
        exact ih h

/-! ## Rust u64 parsing (`str::parse::<u64>()`, as used on header values) -/

/-- One decimal digit. -/
def digitVal (c : Char) : Option Nat :=
  if c.isDigit then some (c.toNat - 48) else none

/-- Fold decimal digits into a u64, failing on a non-digit or overflow. -/
def parseU64Digits (cs : List Char) : Option Nat :=
  cs.foldl
    (fun acc c =>
      acc.bind (fun a =>
        (digitVal c).bind (fun d =>
          let v := a * 10 + d
          if v < 2 ^ 64 then some v else none)))
    (some 0)

/-- Rust's `u64::from_str`: optional leading plus sign, then one or more
decimal digits, no overflow. -/
def parseU64 (s : String) : Option Nat :=
  match s.toList with
  | [] => none
  | '+' :: rest => if rest.isEmpty then none else parseU64Digits rest
  | cs => parseU64Digits cs

/-! ## Client request pipeline (src/client.rs) -/

/-- The library-identifying default User-Agent string built by
`lazy_static!` in src/client.rs from the curl and package versions. -/
def USER_AGENT (curlVersion pkgVersion : String) : String :=
  "curl/" ++ curlVersion ++ " isahc/" ++ pkgVersion

/-- The User-Agent normalization at the top of `send_async_inner`: the
`entry(USER_AGENT).or_insert(...)` call inserts the default only when the
header is absent. -/
def normalizeUserAgent (headers : Headers) (ua : String) : Headers :=
  match getHeader headers "User-Agent" with
  | some _ => headers
  | none => headers ++ [("User-Agent", ua)]

/-- The argument handed to `easy.accept_encoding` in `create_easy_handle`:
the caller's Accept-Encoding value if set, the empty string (curl:
"request and decode everything you support") otherwise. -/
def acceptEncodingArg (headers : Headers) : String :=
  (getHeader headers "Accept-Encoding").getD ""

/-- HTTP request methods as matched in `create_easy_handle`. -/
inductive Method where
  | get
  | head
  | post
  | put
  | delete
  | other (name : String)
deriving DecidableEq

/-- Which curl option carries the request-body length: `post_field_size`
for POST, `in_filesize` for everything else. -/
inductive BodySizeOpt where
  | postFieldSize (n : Nat)
  | inFilesize (n : Nat)
deriving DecidableEq

/-- The length carried by the option. -/
def BodySizeOpt.value : BodySizeOpt → Nat
  | BodySizeOpt.postFieldSize n => n
  | BodySizeOpt.inFilesize n => n

/-- The body-length block of `create_easy_handle` (src/client.rs lines
1069-1097): with a non-empty body, prefer a parseable Content-Length
header, then the body's own length; with neither, insert
`Transfer-Encoding: chunked`, replacing any existing values.  With an
empty body nothing is configured. -/
def configureBodyLength (method : Method) (hasBody : Bool)
    (bodyLength : Option Nat) (headers : Headers) :
    Option BodySizeOpt × Headers :=
  if hasBody then
    let fromHeader := (getHeader headers "Content-Length").bind parseU64
    let effective :=
      match fromHeader with
      | some v => some v
      | none => bodyLength
    match effective with
    | some len =>
        (some (if method = Method.post then BodySizeOpt.postFieldSize len
               else BodySizeOpt.inFilesize len),
         headers)
    | none => (none, insertHeader headers "Transfer-Encoding" "chunked")
  else (none, headers)

/-- C4: for a non-empty body the transport length comes from a parseable
Content-Length header first, then from the body's own length; with
neither, Transfer-Encoding is set to chunked, replacing any existing
values; an empty body configures no length and adds no header. -/
theorem body_length_selection (method : Method) (bodyLength : Option Nat)
    (headers : Headers) :
    (∀ v n, getHeader headers "Content-Length" = some v → parseU64 v = some n →
        (configureBodyLength method true bodyLength headers).snd = headers ∧
        ∃ s, (configureBodyLength method true bodyLength headers).fst = some s ∧
          BodySizeOpt.value s = n) ∧
    ((getHeader headers "Content-Length").bind parseU64 = none →
      ∀ n, bodyLength = some n →
        (configureBodyLength method true bodyLength headers).snd = headers ∧
        ∃ s, (configureBodyLength method true bodyLength headers).fst = some s ∧
          BodySizeOpt.value s = n) ∧
    ((getHeader headers "Content-Length").bind parseU64 = none →
      bodyLength = none →
        (configureBodyLength method true bodyLength headers).fst = none ∧
        getHeaderAll (configureBodyLength method true bodyLength headers).snd
          "Transfer-Encoding" = ["chunked"]) ∧
    (configureBodyLength method false bodyLength headers = (none, headers)) := by
  refine ⟨?_, ?_, ?_, by simp [configureBodyLength]⟩
  · intro v n hget hparse
    have hfrom : (getHeader headers "Content-Length").bind parseU64 = some n := by
      rw [hget]
      simpa using hparse
    constructor
    · simp [configureBodyLength, hfrom]
    · refine ⟨if method = Method.post then BodySizeOpt.postFieldSize n
        else BodySizeOpt.inFilesize n, ?_, ?_⟩
      · simp [configureBodyLength, hfrom]
      · by_cases hm : method = Method.post <;> simp [BodySizeOpt.value, hm]
  · intro hfrom n hbody
    subst hbody
    constructor
    · simp [configureBodyLength, hfrom]
    · refine ⟨if method = Method.post then BodySizeOpt.postFieldSize n
        else BodySizeOpt.inFilesize n, ?_, ?_⟩
      · simp [configureBodyLength, hfrom]
      · by_cases hm : method = Method.post <;> simp [BodySizeOpt.value, hm]
  · intro hfrom hbody
    subst hbody
    constructor
    · simp [configureBodyLength, hfrom]
    · simp only [configureBodyLength, hfrom, if_true]
      exact getHeaderAll_insertHeader _ _ _

/-- Witness for C4: a POST with a 10-byte Content-Length header. -/
theorem body_length_selection_witness :
    (configureBodyLength Method.post true (some 3)
        [("Content-Length", "10")]).snd = [("Content-Length", "10")] ∧
    ∃ s, (configureBodyLength Method.post true (some 3)
        [("Content-Length", "10")]).fst = some s ∧ BodySizeOpt.value s = 10 :=
  (body_length_selection Method.post (some 3) [("Content-Length", "10")]).1
    "10" 10 (by decide) (by decide)

/-- C6: the Accept-Encoding value handed to curl is the caller's header
value when one is set, and the empty string — curl's "request and decode
all supported encodings" — when none is set. -/
theorem accept_encoding_selection (headers : Headers) :
    (∀ v, getHeader headers "Accept-Encoding" = some v →
        acceptEncodingArg headers = v) ∧
    (getHeader headers "Accept-Encoding" = none →
        acceptEncodingArg headers = "") := by
  constructor
  · intro v hv
    simp [acceptEncodingArg, hv]
  · intro hv
    simp [acceptEncodingArg, hv]

/-- Witness for C6 at a request that set Accept-Encoding to gzip. -/
theorem accept_encoding_selection_witness :
    acceptEncodingArg [("Accept-Encoding", "gzip")] = "gzip" :=
  (accept_encoding_selection [("Accept-Encoding", "gzip")]).1 "gzip" (by decide)

/-- C7: after normalization the headers contain a User-Agent entry; a
caller-provided value is left untouched, and otherwise the
library-identifying default is inserted. -/
theorem user_agent_normalization (headers : Headers)
    (curlVersion pkgVersion : String) :
    ((getHeader (normalizeUserAgent headers (USER_AGENT curlVersion pkgVersion))
        "User-Agent").isSome = true) ∧
    (∀ v, getHeader headers "User-Agent" = some v →
        normalizeUserAgent headers (USER_AGENT curlVersion pkgVersion) = headers ∧
        getHeader (normalizeUserAgent headers (USER_AGENT curlVersion pkgVersion))
          "User-Agent" = some v) ∧
    (getHeader headers "User-Agent" = none →
        normalizeUserAgent headers (USER_AGENT curlVersion pkgVersion)
          = headers ++ [("User-Agent", USER_AGENT curlVersion pkgVersion)] ∧
        getHeader (normalizeUserAgent headers (USER_AGENT curlVersion pkgVersion))
          "User-Agent" = some (USER_AGENT curlVersion pkgVersion)) := by
  refine ⟨?_, ?_, ?_⟩
  · cases hua : getHeader headers "User-Agent" with
    | some v => simp [normalizeUserAgent, hua]
    | none =>
        simp only [normalizeUserAgent, hua]
        rw [getHeader_append_self headers _ _ hua]
        rfl
  · intro v hv
    constructor
    · simp [normalizeUserAgent, hv]
    · simp [normalizeUserAgent, hv]
  · intro hv
    constructor
    · simp [normalizeUserAgent, hv]
    · simp only [normalizeUserAgent, hv]
      exact getHeader_append_self headers _ _ hv

/-- Witness for C7 at a request with no User-Agent header. -/
theorem user_agent_normalization_witness :
    getHeader (normalizeUserAgent [("Accept", "text/html")]
        (USER_AGENT "7.64.1" "0.5.0")) "User-Agent"
      = some (USER_AGENT "7.64.1" "0.5.0") :=
  ((user_agent_normalization [("Accept", "text/html")] "7.64.1" "0.5.0").2.2
    (by decide)).2

/-! ## Middleware chain (src/client.rs `send_async_inner`, src/middleware)

Requests and responses are kept abstract; a middleware is its pair of
filter functions.  `send_async_inner` applies the request filters by
iterating the middleware vector in reverse, and the response filters by
iterating it forward. -/

structure Request where
  tag : Nat
deriving DecidableEq

structure Response where
  tag : Nat
deriving DecidableEq

structure Middleware where
  filterRequest : Request → Request
  filterResponse : Response → Response

/-- `for middleware in self.middleware.iter().rev() { request =
middleware.filter_request(request) }`. -/
def applyRequestFilters (ms : List Middleware) (r : Request) : Request :=
  ms.reverse.foldl (fun req m => m.filterRequest req) r

/-- `for middleware in self.middleware.iter() { response =
middleware.filter_response(response) }`. -/
def applyResponseFilters (ms : List Middleware) (resp : Response) : Response :=
  ms.foldl (fun resp m => m.filterResponse resp) resp

/-- The whole middleware portion of `send_async_inner`: request filters,
then the transport (abstracted as `handler`), then response filters. -/
def clientPipeline (ms : List Middleware) (handler : Request → Response)
    (r : Request) : Response :=
  applyResponseFilters ms (handler (applyRequestFilters ms r))

/-- C3: the middleware chain nests symmetrically.  Splitting the chain
anywhere shows the later middleware wrapped around the earlier ones, and
in particular appending one middleware wraps it outermost: its request
filter runs first and its response filter runs last, so requests traverse
the chain outer-to-inner and responses inner-to-outer. -/
theorem middleware_symmetric_nesting :
    (∀ (ms : List Middleware) (m : Middleware) (handler : Request → Response)
        (r : Request),
      clientPipeline (ms ++ [m]) handler r
        = m.filterResponse (clientPipeline ms handler (m.filterRequest r))) ∧
    (∀ (ms1 ms2 : List Middleware) (handler : Request → Response) (r : Request),
      clientPipeline (ms1 ++ ms2) handler r
        = clientPipeline ms2 (fun req => clientPipeline ms1 handler req) r) := by
  have hreq : ∀ (ms1 ms2 : List Middleware) (r : Request),
      applyRequestFilters (ms1 ++ ms2) r
        = applyRequestFilters ms1 (applyRequestFilters ms2 r) := by
    intro ms1 ms2 r
    simp [applyRequestFilters, List.reverse_append, List.foldl_append]
  have hresp : ∀ (ms1 ms2 : List Middleware) (resp : Response),
      applyResponseFilters (ms1 ++ ms2) resp
        = applyResponseFilters ms2 (applyResponseFilters ms1 resp) := by
    intro ms1 ms2 resp
    simp [applyResponseFilters, List.foldl_append]
  have hsplit : ∀ (ms1 ms2 : List Middleware) (handler : Request → Response)
      (r : Request),
      clientPipeline (ms1 ++ ms2) handler r
        = clientPipeline ms2 (fun req => clientPipeline ms1 handler req) r := by
    intro ms1 ms2 handler r
    simp [clientPipeline, hreq, hresp]
  refine ⟨?_, hsplit⟩
  intro ms m handler r
  rw [hsplit ms [m] handler r]
  simp [clientPipeline, applyRequestFilters, applyResponseFilters]

/-! ## Error conversions (src/error.rs)

A curl error is its numeric libcurl code plus the optional extra
description; each `is_*` predicate of the curl crate tests the code
against the corresponding CURLE constant.  An I/O error is modelled by its
`ErrorKind` plus its message. -/

inductive IoErrorKind where
  | connectionRefused
  | timedOut
  | interrupted
  | brokenPipe
  | notConnected
  | other
deriving DecidableEq

structure IoError where
  kind : IoErrorKind
  msg : String
deriving DecidableEq

structure CurlError where
  code : Nat
  extra : Option String
deriving DecidableEq

def isSslCertproblem (e : CurlError) : Bool := e.code == 58
def isSslCacertBadfile (e : CurlError) : Bool := e.code == 77
def isPeerFailedVerification (e : CurlError) : Bool := e.code == 51
def isSslCacert (e : CurlError) : Bool := e.code == 60
def isCouldntConnect (e : CurlError) : Bool := e.code == 7
def isCouldntResolveHost (e : CurlError) : Bool := e.code == 6
def isCouldntResolveProxy (e : CurlError) : Bool := e.code == 5
def isBadContentEncoding (e : CurlError) : Bool := e.code == 61
def isConvFailed (e : CurlError) : Bool := e.code == 75
def isLoginDenied (e : CurlError) : Bool := e.code == 67
def isGotNothing (e : CurlError) : Bool := e.code == 52
def isRangeError (e : CurlError) : Bool := e.code == 33
def isReadError (e : CurlError) : Bool := e.code == 26
def isAbortedByCallback (e : CurlError) : Bool := e.code == 42
def isWriteError (e : CurlError) : Bool := e.code == 23
def isPartialFile (e : CurlError) : Bool := e.code == 18
def isSslConnectError (e : CurlError) : Bool := e.code == 35
def isSslEngineInitfailed (e : CurlError) : Bool := e.code == 66
def isSslEngineNotfound (e : CurlError) : Bool := e.code == 53
def isSslEngineSetfailed (e : CurlError) : Bool := e.code == 54
def isOperationTimedout (e : CurlError) : Bool := e.code == 28

/-- The generic description a curl error displays for its code. -/
def curlDescription (e : CurlError) : String :=
  "curl error code " ++ toString e.code

/-- The cHTTP error taxonomy (src/error.rs). -/
inductive Error where
  | badClientCertificate (msg : Option String)
  | badServerCertificate (msg : Option String)
  | canceled
  | connectFailed
  | couldntResolveHost
  | couldntResolveProxy
  | curl (msg : String)
  | internal
  | invalidContentEncoding (msg : Option String)
  | invalidCredentials
  | invalidHttpFormat (msg : String)
  | invalidJson
  | invalidUtf8
  | io (e : IoError)
  | noResponse
  | rangeRequestUnsupported
  | requestBodyError (msg : Option String)
  | responseBodyError (msg : Option String)
  | sslConnectFailed (msg : Option String)
  | sslEngineError (msg : Option String)
  | timeout
  | tooManyConnections
  | tooManyRedirects
deriving DecidableEq

/-- `impl From<curl::Error> for Error`: the if-else chain of src/error.rs
lines 105-139, in source order. -/
def fromCurlError (e : CurlError) : Error :=
  if isSslCertproblem e || isSslCacertBadfile e then
    Error.badClientCertificate e.extra
  else if isPeerFailedVerification e || isSslCacert e then
    Error.badServerCertificate e.extra
  else if isCouldntConnect e then Error.connectFailed
  else if isCouldntResolveHost e then Error.couldntResolveHost
  else if isCouldntResolveProxy e then Error.couldntResolveProxy
  else if isBadContentEncoding e || isConvFailed e then
    Error.invalidContentEncoding e.extra
  else if isLoginDenied e then Error.invalidCredentials
  else if isGotNothing e then Error.noResponse
  else if isRangeError e then Error.rangeRequestUnsupported
  else if isReadError e || isAbortedByCallback e then
    Error.requestBodyError e.extra
  else if isWriteError e || isPartialFile e then
    Error.responseBodyError e.extra
  else if isSslConnectError e then Error.sslConnectFailed e.extra
  else if isSslEngineInitfailed e || isSslEngineNotfound e
      || isSslEngineSetfailed e then
    Error.sslEngineError e.extra
  else if isOperationTimedout e then Error.timeout
  else Error.curl (curlDescription e)

/-- `impl From<io::Error> for Error` (src/error.rs lines 153-161). -/
def fromIoError (e : IoError) : Error :=
  match e.kind with
  | IoErrorKind.connectionRefused => Error.connectFailed
  | IoErrorKind.timedOut => Error.timeout
  | _ => Error.io e

/-- `impl From<Error> for io::Error` (src/error.rs lines 163-172); a kind
converted with `into()` carries the kind's default message, modelled
empty. -/
def toIoError : Error → IoError
  | Error.connectFailed => { kind := IoErrorKind.connectionRefused, msg := "" }
  | Error.io e => e
  | Error.timeout => { kind := IoErrorKind.timedOut, msg := "" }
  | _ => { kind := IoErrorKind.other, msg := "" }

/-- C8: a curl operation-timeout (CURLE_OPERATION_TIMEDOUT = 28) converts
to Timeout; an I/O error of kind TimedOut converts to Timeout and one of
kind ConnectionRefused to ConnectFailed; and converting Timeout or
ConnectFailed to an I/O error and back is the identity. -/
theorem error_conversions (extra : Option String) (e : IoError) :
    fromCurlError { code := 28, extra := extra } = Error.timeout ∧
    (e.kind = IoErrorKind.timedOut → fromIoError e = Error.timeout) ∧
    (e.kind = IoErrorKind.connectionRefused →
        fromIoError e = Error.connectFailed) ∧
    fromIoError (toIoError Error.timeout) = Error.timeout ∧
    fromIoError (toIoError Error.connectFailed) = Error.connectFailed := by
  refine ⟨?_, ?_, ?_, by decide, by decide⟩
  · simp [fromCurlError, isSslCertproblem, isSslCacertBadfile,
      isPeerFailedVerification, isSslCacert, isCouldntConnect,
      isCouldntResolveHost, isCouldntResolveProxy, isBadContentEncoding,
      isConvFailed, isLoginDenied, isGotNothing, isRangeError, isReadError,
      isAbortedByCallback, isWriteError, isPartialFile, isSslConnectError,
      isSslEngineInitfailed, isSslEngineNotfound, isSslEngineSetfailed,
      isOperationTimedout]
  · intro hk
    simp [fromIoError, hk]
  · intro hk
    simp [fromIoError, hk]

/-- Witness for C8 at a concrete timed-out I/O error. -/
theorem error_conversions_witness :
    fromIoError { kind := IoErrorKind.timedOut, msg := "deadline" }
      = Error.timeout :=
  (error_conversions none
    { kind := IoErrorKind.timedOut, msg := "deadline" }).2.1 rfl

/-! ## Blocking-to-async body copier (src/body/sync.rs `Writer::write`)

The wrapped reader is modelled by the sequence of results its successive
`read` calls produce: a chunk of bytes (of which at most the 16 KiB buffer
is filled) or an error kind.  An exhausted sequence reads as 0 bytes.  The
pipe's write end accepts bytes unless its read end has been closed. -/

/-- `Writer::BUF_SIZE`: the fixed 16 KiB copy buffer. -/
def BUF_SIZE : Nat := 16384

/-- One result of calling `read` on the wrapped blocking reader. -/
inductive ReadStep where
  | chunk (bytes : List Nat)
  | readErr (k : IoErrorKind)

/-- The write end of the pipe: closed when the read end was dropped, plus
the bytes accepted so far. -/
structure PipeW where
  closed : Bool
  data : List Nat
deriving DecidableEq

/-- `write_all` on the pipe writer: writing nothing always succeeds;
otherwise it fails with broken-pipe when the read end is closed and
appends the bytes when open. -/
def pipeWriteAll (p : PipeW) (bytes : List Nat) : Except IoErrorKind PipeW :=
  if bytes.isEmpty then Except.ok p
  else if p.closed then Except.error IoErrorKind.brokenPipe
  else Except.ok { closed := p.closed, data := p.data ++ bytes }

/-- Observable outcome of one run of the copier loop. -/
structure CopyRun where
  chunksWritten : List (List Nat)
  pipe : PipeW
  result : Except IoErrorKind Unit

/-- `Writer::write`: loop reading into the 16 KiB buffer; a 0-byte read
returns Ok(()); an Interrupted read yields and retries; any other read
error is returned; each nonzero chunk is written fully to the pipe and a
failing write is returned. -/
def writerWrite : List ReadStep → PipeW → CopyRun
  | [], p => { chunksWritten := [], pipe := p, result := Except.ok () }
  | ReadStep.chunk bytes :: rest, p =>
      let c := bytes.take BUF_SIZE
      if c.isEmpty then { chunksWritten := [], pipe := p, result := Except.ok () }
      else
        match pipeWriteAll p c with
        | Except.ok p2 =>
            let r := writerWrite rest p2
            { chunksWritten := c :: r.chunksWritten, pipe := r.pipe,
              result := r.result }
        | Except.error e =>
            { chunksWritten := [], pipe := p, result := Except.error e }
  | ReadStep.readErr k :: rest, p =>
      if k = IoErrorKind.interrupted then writerWrite rest p
      else { chunksWritten := [], pipe := p, result := Except.error k }

/-- How a read script alone ends: at a zero-length read (end of body) or
at the first read error that is not Interrupted. -/
inductive ScanOutcome where
  | eod
  | fail (k : IoErrorKind)
deriving DecidableEq

/-- Scan the read script for its terminating event. -/
def scanScript : List ReadStep → ScanOutcome
  | [] => ScanOutcome.eod
  | ReadStep.chunk bytes :: rest =>
      if (bytes.take BUF_SIZE).isEmpty then ScanOutcome.eod
      else scanScript rest
  | ReadStep.readErr k :: rest =>
      if k = IoErrorKind.interrupted then scanScript rest
      else ScanOutcome.fail k
/-- One-step equation: an empty read script reads as end-of-body. -/
theorem writerWrite_nil (p : PipeW) :
    writerWrite [] p = ⟨[], p, Except.ok ()⟩ := rfl

/-- One-step equation: a zero-byte read returns Ok immediately. -/
theorem writerWrite_chunk_nil (bytes : List Nat) (rest : List ReadStep)
    (p : PipeW) (hb : (bytes.take BUF_SIZE).isEmpty = true) :
    writerWrite (ReadStep.chunk bytes :: rest) p = ⟨[], p, Except.ok ()⟩ := by
  simp only [writerWrite]
  rw [if_pos hb]

/-- One-step equation: a nonzero read on a live pipe writes the chunk and
continues. -/
theorem writerWrite_chunk_cons (bytes : List Nat) (rest : List ReadStep)
    (p : PipeW) (hb : ¬((bytes.take BUF_SIZE).isEmpty = true))
    (hp : p.closed = false) :
    writerWrite (ReadStep.chunk bytes :: rest) p =
      ⟨bytes.take BUF_SIZE ::
          (writerWrite rest ⟨false, p.data ++ bytes.take BUF_SIZE⟩).chunksWritten,
        (writerWrite rest ⟨false, p.data ++ bytes.take BUF_SIZE⟩).pipe,
        (writerWrite rest ⟨false, p.data ++ bytes.take BUF_SIZE⟩).result⟩ := by
  have hpc : ¬(p.closed = true) := by simp [hp]
  have hw : pipeWriteAll p (bytes.take BUF_SIZE)
      = Except.ok ⟨false, p.data ++ bytes.take BUF_SIZE⟩ := by
    unfold pipeWriteAll
    rw [if_neg hb, if_neg hpc, hp]
  simp only [writerWrite]
  rw [if_neg hb, hw]

/-- One-step equation: a nonzero read on a closed pipe fails the write. -/
theorem writerWrite_chunk_closed (bytes : List Nat) (rest : List ReadStep)
    (p : PipeW) (hb : ¬((bytes.take BUF_SIZE).isEmpty = true))
    (hp : p.closed = true) :
    writerWrite (ReadStep.chunk bytes :: rest) p
      = ⟨[], p, Except.error IoErrorKind.brokenPipe⟩ := by
  have hw : pipeWriteAll p (bytes.take BUF_SIZE)
      = Except.error IoErrorKind.brokenPipe := by
    unfold pipeWriteAll
    rw [if_neg hb, if_pos hp]
  simp only [writerWrite]
  rw [if_neg hb, hw]

/-- One-step equation: an Interrupted read yields and retries. -/
theorem writerWrite_interrupted (rest : List ReadStep) (p : PipeW) :
    writerWrite (ReadStep.readErr IoErrorKind.interrupted :: rest) p
      = writerWrite rest p := by
  simp [writerWrite]

/-- One-step equation: any other read error terminates the copier. -/
theorem writerWrite_readErr (k : IoErrorKind) (rest : List ReadStep)
    (p : PipeW) (hk : ¬(k = IoErrorKind.interrupted)) :
    writerWrite (ReadStep.readErr k :: rest) p
      = ⟨[], p, Except.error k⟩ := by
  simp only [writerWrite]
  rw [if_neg hk]

/-- C5: the copier writes the reader's bytes to the pipe in chunks of at
most 16384 bytes, each written fully; with a live pipe it returns Ok
exactly when the reader signals end-of-body and otherwise returns the
first non-Interrupted read error; an Interrupted read is retried rather
than terminating; a write onto a closed pipe terminates the copier with
the broken-pipe error. -/
theorem writer_write_spec (script : List ReadStep) (p : PipeW) :
    (∀ c, c ∈ (writerWrite script p).chunksWritten → c.length ≤ BUF_SIZE) ∧
    ((writerWrite script p).pipe.data
        = p.data ++ (writerWrite script p).chunksWritten.flatten) ∧
    (p.closed = false →
      (writerWrite script p).result
        = match scanScript script with
          | ScanOutcome.eod => Except.ok ()
          | ScanOutcome.fail k => Except.error k) ∧
    (∀ rest, writerWrite (ReadStep.readErr IoErrorKind.interrupted :: rest) p
        = writerWrite rest p) ∧
    (∀ bytes rest, p.closed = true → ¬((bytes.take BUF_SIZE).isEmpty = true) →
      (writerWrite (ReadStep.chunk bytes :: rest) p).result
        = Except.error IoErrorKind.brokenPipe) := by
  have hmain : ∀ (script : List ReadStep) (p : PipeW),
      (∀ c, c ∈ (writerWrite script p).chunksWritten → c.length ≤ BUF_SIZE) ∧
      ((writerWrite script p).pipe.data
          = p.data ++ (writerWrite script p).chunksWritten.flatten) ∧
      (p.closed = false →
        (writerWrite script p).result
          = match scanScript script with
            | ScanOutcome.eod => Except.ok ()
            | ScanOutcome.fail k => Except.error k) := by
    intro script
    induction script with
    | nil =>
        intro p
        refine ⟨by simp [writerWrite_nil], by simp [writerWrite_nil], ?_⟩
        intro _
        simp [writerWrite_nil, scanScript]
    | cons step rest ih =>
        intro p
        cases step with
        | chunk bytes =>
            by_cases hb : (bytes.take BUF_SIZE).isEmpty = true
            · rw [writerWrite_chunk_nil bytes rest p hb]
              refine ⟨by simp, by simp, ?_⟩
              intro _
              simp [scanScript, hb]
            · by_cases hp : p.closed = true
              · rw [writerWrite_chunk_closed bytes rest p hb hp]
                refine ⟨by simp, by simp, ?_⟩
                intro hopen
                rw [hopen] at hp
                simp at hp
              · have hopen : p.closed = false := by
                  cases h2 : p.closed with
                  | false => rfl
                  | true => exact absurd h2 hp
                rw [writerWrite_chunk_cons bytes rest p hb hopen]
                refine ⟨?_, ?_, ?_⟩
                · intro c hc
                  simp only [List.mem_cons] at hc
                  cases hc with
                  | inl h =>
                      subst h
                      rw [List.length_take]
                      exact Nat.min_le_left _ _
                  | inr h =>
                      exact (ih ⟨false, p.data ++ bytes.take BUF_SIZE⟩).1 c h
                · show (writerWrite rest
                      ⟨false, p.data ++ bytes.take BUF_SIZE⟩).pipe.data
                    = p.data ++ (bytes.take BUF_SIZE ::
                        (writerWrite rest
                          ⟨false, p.data ++ bytes.take BUF_SIZE⟩).chunksWritten).flatten
                  rw [(ih ⟨false, p.data ++ bytes.take BUF_SIZE⟩).2.1]
                  simp [List.append_assoc]
                · intro _
                  show (writerWrite rest
                      ⟨false, p.data ++ bytes.take BUF_SIZE⟩).result
                    = match scanScript (ReadStep.chunk bytes :: rest) with
                      | ScanOutcome.eod => Except.ok ()
                      | ScanOutcome.fail k => Except.error k
                  simp only [scanScript]
                  rw [if_neg hb]
                  exact (ih ⟨false, p.data ++ bytes.take BUF_SIZE⟩).2.2 rfl
        | readErr k =>
            by_cases hk : k = IoErrorKind.interrupted
            · subst hk
              rw [writerWrite_interrupted rest p]
              refine ⟨(ih p).1, (ih p).2.1, ?_⟩
              intro hopen
              rw [(ih p).2.2 hopen]
              simp [scanScript]
            · rw [writerWrite_readErr k rest p hk]
              refine ⟨by simp, by simp, ?_⟩
              intro _
              simp only [scanScript]
              rw [if_neg hk]
  exact ⟨(hmain script p).1, (hmain script p).2.1, (hmain script p).2.2,
    fun rest => writerWrite_interrupted rest p,
    fun bytes rest hp hb => by
      rw [writerWrite_chunk_closed bytes rest p hb hp]⟩

/-- Witness for C5 at a two-byte reader over a live pipe. -/
theorem writer_write_spec_witness :
    (writerWrite [ReadStep.chunk [7, 8], ReadStep.chunk []]
        (PipeW.mk false [])).result = Except.ok () := by
  rw [(writer_write_spec [ReadStep.chunk [7, 8], ReadStep.chunk []]
    (PipeW.mk false [])).2.2.1 rfl]
  rfl

/-! ## Interceptor execution context (src/interceptor/context.rs)

A `Context` holds the invoker closure and the remaining interceptor
slice.  The only capability a context hands an interceptor is its `send`,
so an interceptor is modelled as a function of the request and of the
inner context's send function.  An interceptor error is modelled by the
display message `e.to_string()` extracts from it. -/

structure InterceptorError where
  display : String

/-- An interceptor: receives the request and the inner context's send. -/
abbrev Interceptor : Type :=
  Request → (Request → Except Error Response) → Except InterceptorError Response

/-- `Context::send`: with no interceptors left, invoke the transport
directly; otherwise run the first interceptor against the context holding
the remaining interceptors, wrapping an interceptor error into
`Error::Curl(e.to_string())`. -/
def contextSend (invoker : Request → Except Error Response) :
    List Interceptor → Request → Except Error Response
  | [], request => invoker request
  | i :: rest, request =>
      match i request (fun r => contextSend invoker rest r) with
      | Except.ok response => Except.ok response
      | Except.error e => Except.error (Error.curl e.display)

/-- C10: with an empty interceptor list, send applies the invoker directly
and returns its result unchanged; when the first interceptor fails, send
returns the opaque Error::Curl variant carrying only that error's display
message, never a dedicated taxonomy kind. -/
theorem context_send_spec (invoker : Request → Except Error Response)
    (request : Request) :
    (contextSend invoker [] request = invoker request) ∧
    (∀ (i : Interceptor) (rest : List Interceptor) (e : InterceptorError),
      i request (fun r => contextSend invoker rest r) = Except.error e →
      contextSend invoker (i :: rest) request
        = Except.error (Error.curl e.display)) := by
  refine ⟨rfl, ?_⟩
  intro i rest e he
  simp only [contextSend]
  rw [he]

/-- Witness for C10 at a concrete failing interceptor. -/
theorem context_send_spec_witness :
    contextSend (fun _ => Except.ok (Response.mk 0))
      [fun _ _ => Except.error (InterceptorError.mk "boom")] (Request.mk 1)
      = Except.error (Error.curl "boom") :=
  (context_send_spec (fun _ => Except.ok (Response.mk 0)) (Request.mk 1)).2
    (fun _ _ => Except.error (InterceptorError.mk "boom")) []
    (InterceptorError.mk "boom") rfl

end Chttp
